import Mathlib

/-!
Shallow embedding of the `crossfig` compile-time configuration engine
(`src/src/lib.rs`): the `switch!` branch selector, the condition grammar it
accepts (`#[cfg(meta)]` predicates, alias paths, `not`, `all`, `any`, and the
wildcard `_` arm), the `enabled!`/`disabled!` macros, and the `alias!`
definition mechanism.

The Condition Oracle (the host toolchain's `cfg` evaluation) is a function
`σ : P → Bool` over opaque predicate names; the alias environment
`α : A → Bool` records, for each defined alias, whether it was bound to
`enabled` (true) or `disabled` (false) at its definition site, since
`alias!` expands to `use $crate::enabled as $p` or
`use $crate::disabled as $p` in the defining crate.

Fragments are opaque payloads; a fragment may itself be a nested `switch!`
invocation, so `Frag`/`Arm` are mutually inductive.
-/

namespace Crossfig

/-- The condition grammar accepted by `switch!` arms and inside `all(...)` /
`any(...)`: a `#[cfg($meta)]` predicate (answered by the host toolchain's
Condition Oracle), an alias path (`$cond:path`), or the operators
`not(...)`, `all(...)`, `any(...)`. -/
inductive Cond (P A : Type) where
  | meta : P → Cond P A
  | als : A → Cond P A
  | not : Cond P A → Cond P A
  | all : List (Cond P A) → Cond P A
  | any : List (Cond P A) → Cond P A

mutual
/-- A fragment (a `$output:tt` payload of a `switch!` arm): either an opaque
leaf payload, or a nested `switch!` invocation. -/
inductive Frag (P A F : Type) where
  | leaf : F → Frag P A F
  | nested : List (Arm P A F) → Frag P A F

/-- One arm of a `switch!` invocation: either `cond => output` or the
wildcard `_ => output`. -/
inductive Arm (P A F : Type) where
  | arm : Cond P A → Frag P A F → Arm P A F
  | wild : Frag P A F → Arm P A F
end

variable {P A F : Type}

/-- Evaluation of a condition against the Condition Oracle `σ` and the alias
environment `α`, mirroring how `switch!` decomposes conditions:
`#[cfg(meta)]` is answered by the Oracle (the `cfg(...) Integration` arm);
an alias path is answered by the macro it was bound to at definition
(the `Alias Integration` arm); `not(args)` swaps the success and fall-through
continuations; `all()` is vacuously true and `all(c, rest)` succeeds when `c`
and `all(rest)` do (the `Empty` / `Inner ... & More` arms); `any()` is
vacuously false and `any(c, rest)` succeeds when `c` or `any(rest)` does. -/
def evalCond (σ : P → Bool) (α : A → Bool) : Cond P A → Bool
  | .meta p => σ p
  | .als a => α a
  | .not c => !(evalCond σ α c)
  | .all [] => true
  | .all (c :: cs) => evalCond σ α c && evalCond σ α (.all cs)
  | .any [] => false
  | .any (c :: cs) => evalCond σ α c || evalCond σ α (.any cs)

mutual
/-- The `switch!` branch selector. An empty invocation produces nothing
(`.ok none`). A `cond => output` arm commits to `output` when `cond`
evaluates true and otherwise falls through to the remaining arms, which are
only then processed (`#[cfg($meta)]` gates the two recursive `switch!`
calls; an alias arm puts the two continuations in the `if`/`else` shape of
the bound `enabled`/`disabled` macro, which drops the other side
unexpanded). A lone wildcard arm emits its output. A wildcard arm followed
by further arms is the `compile_error!` case (`.error ()`). -/
def select (σ : P → Bool) (α : A → Bool) : List (Arm P A F) → Except Unit (Option F)
  | [] => .ok none
  | .arm c f :: arms =>
      if evalCond σ α c then emit σ α f else select σ α arms
  | [.wild f] => emit σ α f
  | .wild _ :: _ :: _ => .error ()

/-- Emitting a committed fragment: a leaf payload is the result; a nested
`switch!` fragment expands in turn. -/
def emit (σ : P → Bool) (α : A → Bool) : Frag P A F → Except Unit (Option F)
  | .leaf x => .ok (some x)
  | .nested s => select σ α s
end

/-- The three call shapes shared by the `enabled!` and `disabled!` macros:
`()` returns a `bool`; `if { p } else { n }` selects one of the two blocks;
a bare token block is passed through or suppressed. -/
structure CfgMacro (F : Type) where
  asBool : Bool
  ifElse : F → F → F
  guard : F → Option F

/-- The `enabled!` macro: `() => true`; the `if`/`else` shape keeps the
first block; a bare block is passed through. -/
def enabled (F : Type) : CfgMacro F :=
  { asBool := true, ifElse := fun p _ => p, guard := fun f => some f }

/-- The `disabled!` macro: `() => false`; the `if`/`else` shape keeps the
second block; a bare block is suppressed. -/
def disabled (F : Type) : CfgMacro F :=
  { asBool := false, ifElse := fun _ n => n, guard := fun _ => none }

/-- The `alias!` macro's expansion for one binding `p: { cond }`: a
`switch!` whose first arm binds `p` to the `enabled` macro when `cond` is
active in the defining crate's context, and whose wildcard arm binds `p` to
the `disabled` macro otherwise. -/
def aliasDefine (σ : P → Bool) (α : A → Bool) (body : Cond P A) :
    Except Unit (Option (CfgMacro F)) :=
  select σ α [Arm.arm body (Frag.leaf (enabled F)), Arm.wild (Frag.leaf (disabled F))]

/-- `armsMiss σ α arms` holds when every arm of `arms` is a conditional arm
whose condition evaluates false: a run of arms through which `switch!`
falls all the way. -/
def armsMiss (σ : P → Bool) (α : A → Bool) : List (Arm P A F) → Bool
  | [] => true
  | .arm c _ :: rest => !(evalCond σ α c) && armsMiss σ α rest
  | .wild _ :: _ => false

/-- Depth of a condition tree: the recursion depth `switch!` needs to
decompose it. -/
def condSize : Cond P A → Nat
  | .meta _ => 1
  | .als _ => 1
  | .not c => condSize c + 1
  | .all [] => 1
  | .all (c :: cs) => max (condSize c) (condSize (Cond.all cs)) + 1
  | .any [] => 1
  | .any (c :: cs) => max (condSize c) (condSize (Cond.any cs)) + 1

/-- Fuel-indexed condition evaluation: each recursive decomposition step of
the macro consumes one unit of fuel; `none` models running out of recursion
depth. Used to state that evaluation of every finite condition tree
terminates. -/
def evalCondFuel (σ : P → Bool) (α : A → Bool) : Nat → Cond P A → Option Bool
  | 0, _ => none
  | _ + 1, .meta p => some (σ p)
  | _ + 1, .als a => some (α a)
  | n + 1, .not c => (evalCondFuel σ α n c).map fun b => !b
  | _ + 1, .all [] => some true
  | n + 1, .all (c :: cs) =>
      match evalCondFuel σ α n c, evalCondFuel σ α n (.all cs) with
      | some b, some bs => some (b && bs)
      | _, _ => none
  | _ + 1, .any [] => some false
  | n + 1, .any (c :: cs) =>
      match evalCondFuel σ α n c, evalCondFuel σ α n (.any cs) with
      | some b, some bs => some (b || bs)
      | _, _ => none

/-! ### Helper lemmas -/

theorem evalCond_all_append (σ : P → Bool) (α : A → Bool) (l1 l2 : List (Cond P A)) :
    evalCond σ α (Cond.all (l1 ++ l2)) =
      (evalCond σ α (Cond.all l1) && evalCond σ α (Cond.all l2)) := by
  induction l1 with
  | nil => simp [evalCond]
  | cons c cs ih => simp [evalCond, ih, Bool.and_assoc]

theorem evalCond_any_append (σ : P → Bool) (α : A → Bool) (l1 l2 : List (Cond P A)) :
    evalCond σ α (Cond.any (l1 ++ l2)) =
      (evalCond σ α (Cond.any l1) || evalCond σ α (Cond.any l2)) := by
  induction l1 with
  | nil => simp [evalCond]
  | cons c cs ih => simp [evalCond, ih, Bool.or_assoc]

theorem select_append_miss (σ : P → Bool) (α : A → Bool) (pre rest : List (Arm P A F))
    (h : armsMiss σ α pre = true) : select σ α (pre ++ rest) = select σ α rest := by
  induction pre with
  | nil => simp
  | cons a pre ih =>
      cases a with
      | arm c f =>
          simp only [armsMiss, Bool.and_eq_true, Bool.not_eq_true'] at h
          simp [select, h.1, ih h.2]
      | wild f => simp [armsMiss] at h

/-! ### Claims -/

/-- C3: for every Oracle state and alias environment, the empty conjunction
`all()` evaluates to true (vacuous truth) and the empty disjunction `any()`
evaluates to false (vacuous falsehood). -/
theorem all_empty_true_any_empty_false (σ : P → Bool) (α : A → Bool) :
    evalCond σ α (Cond.all ([] : List (Cond P A))) = true ∧
      evalCond σ α (Cond.any ([] : List (Cond P A))) = false := by
  constructor <;> simp [evalCond]

/-- C4: for every condition `e` and every Oracle state and alias
environment, `not(not(e))` evaluates identically to `e`. -/
theorem not_not_eval (σ : P → Bool) (α : A → Bool) (e : Cond P A) :
    evalCond σ α (Cond.not (Cond.not e)) = evalCond σ α e := by
  simp [evalCond]

/-- C10: singleton conjunction and disjunction collapse to their sole
operand: `all(e)` and `any(e)` evaluate identically to `e`, for every
Oracle state and alias environment. -/
theorem all_any_singleton (σ : P → Bool) (α : A → Bool) (e : Cond P A) :
    evalCond σ α (Cond.all [e]) = evalCond σ α e ∧
      evalCond σ α (Cond.any [e]) = evalCond σ α e := by
  constructor <;> simp [evalCond]

/-- C6: evaluation of `all` short-circuits at a false operand and `any` at a
true operand: if `e` evaluates false then `all(pre ++ e :: post)` is false,
and the result is unchanged under any replacement of the elements after `e`
(they are never consulted); dually, if `e` evaluates true then
`any(pre ++ e :: post)` is true, independent of every element after `e`. -/
theorem short_circuit_all_any (σ : P → Bool) (α : A → Bool)
    (pre post post' : List (Cond P A)) (e : Cond P A) :
    (evalCond σ α e = false →
      evalCond σ α (Cond.all (pre ++ e :: post)) = false ∧
        evalCond σ α (Cond.all (pre ++ e :: post)) =
          evalCond σ α (Cond.all (pre ++ e :: post'))) ∧
    (evalCond σ α e = true →
      evalCond σ α (Cond.any (pre ++ e :: post)) = true ∧
        evalCond σ α (Cond.any (pre ++ e :: post)) =
          evalCond σ α (Cond.any (pre ++ e :: post'))) := by
  constructor
  · intro h
    have h1 : evalCond σ α (Cond.all (pre ++ e :: post)) = false := by
      simp [evalCond_all_append, evalCond, h]
    have h2 : evalCond σ α (Cond.all (pre ++ e :: post')) = false := by
      simp [evalCond_all_append, evalCond, h]
    exact ⟨h1, h1.trans h2.symm⟩
  · intro h
    have h1 : evalCond σ α (Cond.any (pre ++ e :: post)) = true := by
      simp [evalCond_any_append, evalCond, h]
    have h2 : evalCond σ α (Cond.any (pre ++ e :: post')) = true := by
      simp [evalCond_any_append, evalCond, h]
    exact ⟨h1, h1.trans h2.symm⟩

/-- C6 witness: in `all(true, false, x)` the false second operand decides
the result regardless of the third. -/
theorem short_circuit_all_any_witness :
    evalCond (fun p : Nat => decide (p = 1)) (fun _ : Nat => false)
      (Cond.all [Cond.meta 1, Cond.meta 0, Cond.meta 2]) = false := by
  have h := (short_circuit_all_any (fun p : Nat => decide (p = 1)) (fun _ : Nat => false)
      [Cond.meta 1] [Cond.meta 2] [Cond.als 5] (Cond.meta 0)).1 (by simp [evalCond])
  simpa using h.1

/-- C1: for every Switch and every fixed Oracle state, `select` commits to
the first arm in written order whose condition evaluates true and emits its
fragment, whatever the arms after it are (they are never processed, `post`
does not occur in the result); if every conditional arm misses and a
trailing wildcard arm is present, `select` emits the wildcard's fragment. -/
theorem select_first_true_arm (σ : P → Bool) (α : A → Bool)
    (pre post : List (Arm P A F)) (c : Cond P A) (f wf : Frag P A F) :
    (armsMiss σ α pre = true → evalCond σ α c = true →
      select σ α (pre ++ Arm.arm c f :: post) = emit σ α f) ∧
    (armsMiss σ α pre = true →
      select σ α (pre ++ [Arm.wild wf]) = emit σ α wf) := by
  constructor
  · intro h hc
    rw [select_append_miss σ α pre _ h]
    simp [select, hc]
  · intro h
    rw [select_append_miss σ α pre _ h]
    simp [select]

/-- C1 witness: the spec's example Switch
`[(false, F1), (true, F2), (wildcard, F3)]` selects F2. -/
theorem select_first_true_arm_witness :
    select (fun p : Nat => decide (p = 1)) (fun _ : Nat => false)
      ([Arm.arm (Cond.meta 0) (Frag.leaf 1)] ++
        Arm.arm (Cond.meta 1) (Frag.leaf (2 : Nat)) :: [Arm.wild (Frag.leaf 3)]) =
      .ok (some 2) := by
  have h := (select_first_true_arm (fun p : Nat => decide (p = 1)) (fun _ : Nat => false)
      [Arm.arm (Cond.meta 0) (Frag.leaf 1)] [Arm.wild (Frag.leaf 3)]
      (Cond.meta 1) (Frag.leaf 2) (Frag.leaf 3)).1
      (by simp [armsMiss, evalCond]) (by simp [evalCond])
  simpa [emit] using h

/-- C8: a Switch with no wildcard arm, under an Oracle state in which no
arm's condition evaluates true, produces the empty result (`.ok none`),
not an error. -/
theorem select_all_miss_no_wildcard (σ : P → Bool) (α : A → Bool)
    (arms : List (Arm P A F)) (h : armsMiss σ α arms = true) :
    select σ α arms = .ok none := by
  have h2 := select_append_miss σ α arms [] h
  rw [List.append_nil] at h2
  rw [h2]
  simp [select]

/-- C8 witness: a one-arm Switch whose only condition is false and which has
no wildcard produces the empty result. -/
theorem select_all_miss_no_wildcard_witness :
    select (fun p : Nat => decide (p = 1)) (fun _ : Nat => false)
      [Arm.arm (Cond.meta 0) (Frag.leaf (5 : Nat)), Arm.arm (Cond.als 0) (Frag.leaf 6)] =
      .ok none :=
  select_all_miss_no_wildcard _ _ _ (by simp [armsMiss, evalCond])

/-- C5 counterexample: a Switch containing an arm after a wildcard arm is
NOT always rejected: when an arm before the wildcard matches, `switch!`
commits to it and the malformed tail is discarded unexpanded, so no
`compile_error!` is ever produced. -/
theorem wildcard_then_arm_not_always_rejected :
    select (fun p : Nat => decide (p = 1)) (fun _ : Nat => false)
      [Arm.arm (Cond.meta 1) (Frag.leaf (10 : Nat)), Arm.wild (Frag.leaf 20),
        Arm.arm (Cond.meta 2) (Frag.leaf 30)] = .ok (some 10) ∧
    select (fun p : Nat => decide (p = 1)) (fun _ : Nat => false)
      [Arm.arm (Cond.meta 1) (Frag.leaf (10 : Nat)), Arm.wild (Frag.leaf 20),
        Arm.arm (Cond.meta 2) (Frag.leaf 30)] ≠ .error () := by
  constructor
  · simp [select, emit, evalCond]
  · simp [select, emit, evalCond]

/-- C5 (amended): a Switch in which an arm follows a wildcard arm is
rejected with a hard `compile_error!` whenever expansion reaches the
wildcard, i.e. whenever every arm before the wildcard misses — regardless
of the trailing arm's condition; and this error is distinct from the
legitimate no-match empty result. -/
theorem wildcard_then_arm_error (σ : P → Bool) (α : A → Bool)
    (pre : List (Arm P A F)) (f : Frag P A F) (a : Arm P A F) (post : List (Arm P A F))
    (h : armsMiss σ α pre = true) :
    select σ α (pre ++ Arm.wild f :: a :: post) = .error () ∧
      (Except.error () : Except Unit (Option F)) ≠ .ok none := by
  refine ⟨?_, by simp⟩
  rw [select_append_miss σ α pre _ h]
  simp [select]

/-- C5 witness: a missed conditional arm, then a wildcard, then a trailing
arm: `select` reports the error. -/
theorem wildcard_then_arm_error_witness :
    select (fun p : Nat => decide (p = 1)) (fun _ : Nat => false)
      ([Arm.arm (Cond.meta 0) (Frag.leaf (10 : Nat))] ++
        Arm.wild (Frag.leaf 20) :: Arm.arm (Cond.meta 1) (Frag.leaf 30) :: []) =
      .error () :=
  (wildcard_then_arm_error (fun p : Nat => decide (p = 1)) (fun _ : Nat => false)
    [Arm.arm (Cond.meta 0) (Frag.leaf 10)] (Frag.leaf 20)
    (Arm.arm (Cond.meta 1) (Frag.leaf 30)) [] (by simp [armsMiss, evalCond])).1

theorem aliasDefine_eq (σ : P → Bool) (α : A → Bool) (body : Cond P A) :
    aliasDefine (F := F) σ α body =
      .ok (some (if evalCond σ α body then enabled F else disabled F)) := by
  by_cases h : evalCond σ α body = true
  · simp [aliasDefine, select, emit, h]
  · simp only [Bool.not_eq_true] at h
    simp [aliasDefine, select, emit, h]

/-- C7: every defined alias is bound (via the `alias!` switch) to a single
macro whose three call shapes are projections of the one evaluation of the
alias body at its definition site: called with no payload it returns that
boolean value; called with one fragment it yields the fragment exactly when
the value is true; called in the `if`/`else` shape it yields the first
fragment when the value is true and the second otherwise. -/
theorem alias_call_shapes (σ : P → Bool) (α : A → Bool) (body : Cond P A) :
    ∃ m : CfgMacro F, aliasDefine σ α body = .ok (some m) ∧
      m.asBool = evalCond σ α body ∧
      (∀ f, m.guard f = if evalCond σ α body then some f else none) ∧
      (∀ p n, m.ifElse p n = if evalCond σ α body then p else n) := by
  refine ⟨if evalCond σ α body then enabled F else disabled F,
    aliasDefine_eq σ α body, ?_, ?_, ?_⟩ <;>
    cases h : evalCond σ α body <;> simp [enabled, disabled, h]

/-- C2: definition-site binding of aliases. If unit U (Oracle `σU`, alias
environment `αU`) defines alias `a` with body `body`, the `alias!`
expansion binds `a` to the macro `m`; a referencing unit V (Oracle `σV`)
sees the alias environment updated at `a` with `m`'s boolean, so
evaluating the alias reference from V yields the evaluation of `body`
under U's Oracle state, irrespective of V's Oracle state — in particular,
when the body is the single predicate `p`, true under `σU` and false under
`σV`, the reference evaluated from V still yields true. -/
theorem alias_definition_site [DecidableEq A] (σU σV : P → Bool)
    (αU αV : A → Bool) (a : A) (body : Cond P A) (m : CfgMacro F)
    (hm : aliasDefine (F := F) σU αU body = .ok (some m)) :
    evalCond σV (Function.update αV a m.asBool) (Cond.als a) =
      evalCond σU αU body ∧
    (∀ p : P, body = Cond.meta p → σU p = true → σV p = false →
      evalCond σV (Function.update αV a m.asBool) (Cond.als a) = true ∧
        σV p = false) := by
  rw [aliasDefine_eq σU αU body] at hm
  have hb : m.asBool = evalCond σU αU body := by
    cases hm' : evalCond σU αU body <;>
      simp [hm', enabled, disabled] at hm <;> rw [← hm]
  constructor
  · simp [evalCond, Function.update, hb]
  · intro p hp hU hV
    subst hp
    refine ⟨?_, hV⟩
    simp [evalCond, Function.update, hb, hU]

/-- C2 witness: predicate 0 is true in the defining unit U and false in the
referencing unit V; the alias reference evaluated from V yields true. -/
theorem alias_definition_site_witness :
    evalCond (fun _ : Nat => false)
      (Function.update (fun _ : Nat => false) 7 ((enabled Nat).asBool))
      (Cond.als 7) = true := by
  have h := (alias_definition_site (F := Nat) (fun _ : Nat => true)
      (fun _ : Nat => false) (fun _ : Nat => false) (fun _ : Nat => false)
      7 (Cond.meta 0) (enabled Nat)
      (by simp [aliasDefine, select, emit, evalCond, enabled])).2
      0 rfl (by simp) (by simp)
  exact h.1

/-- C9: evaluation of every finite condition tree terminates and returns a
boolean: the fuel-indexed evaluator (one unit of fuel per recursive
decomposition step of `switch!`) never runs out once the fuel reaches the
tree's depth, and it agrees with the total evaluation function. -/
theorem evaluate_total (σ : P → Bool) (α : A → Bool) (e : Cond P A) (n : Nat)
    (h : condSize e ≤ n) : evalCondFuel σ α n e = some (evalCond σ α e) := by
  induction n generalizing e with
  | zero =>
      exfalso
      cases e with
      | meta p => simp [condSize] at h
      | als a => simp [condSize] at h
      | not c => simp [condSize] at h
      | all cs => cases cs <;> simp [condSize] at h
      | any cs => cases cs <;> simp [condSize] at h
  | succ n ih =>
      cases e with
      | meta p => simp [evalCondFuel, evalCond]
      | als a => simp [evalCondFuel, evalCond]
      | not c =>
          have hc : condSize c ≤ n := by
            simp only [condSize] at h
            omega
          simp [evalCondFuel, evalCond, ih c hc]
      | all cs =>
          cases cs with
          | nil => simp [evalCondFuel, evalCond]
          | cons c cs =>
              simp only [condSize, Nat.max_le] at h
              have h1 : condSize c ≤ n := by omega
              have h2 : condSize (Cond.all cs) ≤ n := by omega
              simp [evalCondFuel, evalCond, ih c h1, ih (Cond.all cs) h2]
      | any cs =>
          cases cs with
          | nil => simp [evalCondFuel, evalCond]
          | cons c cs =>
              simp only [condSize, Nat.max_le] at h
              have h1 : condSize c ≤ n := by omega
              have h2 : condSize (Cond.any cs) ≤ n := by omega
              simp [evalCondFuel, evalCond, ih c h1, ih (Cond.any cs) h2]

/-- C9 witness: a compound condition of depth 4 evaluates with fuel 4 to
`some true` — evaluation terminates and yields a boolean. -/
theorem evaluate_total_witness :
    evalCondFuel (fun p : Nat => decide (p = 1)) (fun _ : Nat => false) 4
      (Cond.all [Cond.meta 1, Cond.not (Cond.meta 0)]) = some true := by
  have h := evaluate_total (fun p : Nat => decide (p = 1)) (fun _ : Nat => false)
      (Cond.all [Cond.meta 1, Cond.not (Cond.meta 0)]) 4 (by simp [condSize])
  simpa [evalCond] using h

end Crossfig
